import Mathlib

/-!
Verification of the MulensModel caustic-geometry and event-fitting core.

This file gives a shallow embedding of the parts of the repository that the
claims concern:

* `UniformCausticSampling` (uniformcausticsampling.py): the topology
  classification `_get_n_caustics`, the per-angle branch disambiguation inside
  `_integrate` for the 3-caustic topology, the curvilinear partition built at
  the end of `_find_inflections_and_correct`, `which_caustic`, and
  `get_standard_parameters`.
* `CausticsPointWithShear._calculate` (causticspoint.py): the angle sampling
  and per-angle root recording.
* `Event` (event.py): the attribute/setter state machine around the cached
  per-dataset fits.

Python floats are embedded as exact elements of a linear ordered field
(instantiated at `ℚ` where executability is wanted and at `ℝ` where the code
uses `sqrt`, `arctan` or powers).  `numpy.complex128` values are embedded as
pairs of field elements with the componentwise operations that numpy uses.
Fallible code is embedded with `Except String`.
-/

namespace MulensModel

/-- Complex numbers over a field `K`, embedding `numpy.complex128`
(a pair of floats with componentwise operations). -/
structure Cplx (K : Type) where
  re : K
  im : K
deriving DecidableEq

variable {K : Type} [LinearOrderedField K]

/-- Embeds `numpy.conjugate`. -/
def Cplx.conj (z : Cplx K) : Cplx K := ⟨z.re, -z.im⟩

/-- Componentwise complex addition. -/
def Cplx.add (z w : Cplx K) : Cplx K := ⟨z.re + w.re, z.im + w.im⟩

/-- Componentwise complex subtraction. -/
def Cplx.sub (z w : Cplx K) : Cplx K := ⟨z.re - w.re, z.im - w.im⟩

/-- Complex reciprocal, the way numpy computes it:
`1/(a+bi) = (a-bi)/(a^2+b^2)`. -/
def Cplx.inv (z : Cplx K) : Cplx K :=
  ⟨z.re / (z.re ^ 2 + z.im ^ 2), -z.im / (z.re ^ 2 + z.im ^ 2)⟩

/-- Complex division `z / w = z * conj w / |w|^2`, as numpy computes it. -/
def Cplx.div (z w : Cplx K) : Cplx K :=
  ⟨(z.re * w.re + z.im * w.im) / (w.re ^ 2 + w.im ^ 2),
   (z.im * w.re - z.re * w.im) / (w.re ^ 2 + w.im ^ 2)⟩

/-- Scaling a complex number by a real (float) factor. -/
def Cplx.smul (a : K) (z : Cplx K) : Cplx K := ⟨a * z.re, a * z.im⟩

/-- Embedding of a real (float) value into the complexes. -/
def Cplx.ofField (a : K) : Cplx K := ⟨a, 0⟩

/-! ## `UniformCausticSampling.which_caustic` and the curvilinear partition -/

/-- Embeds `np.searchsorted(a, v)` (default side `left`) on a sorted array:
the insertion index equals the number of elements strictly below `v`. -/
def searchsorted : List K → K → ℕ
  | [], _ => 0
  | b :: rest, v => (if b < v then 1 else 0) + searchsorted rest v

/-- Embeds `UniformCausticSampling.which_caustic`.  `bnds` is the array
`self._which_caustic` and `n` is `self._n_caustics`.  The two `ValueError`
raises become `Except.error`. -/
def which_caustic (bnds : List K) (n : ℕ) (x : K) : Except String ℕ :=
  if 1 < x then Except.error "Got x_caustic > 1"
  else if x < 0 then Except.error "Got x_caustic < 0"
  else if n = 1 then Except.ok 1
  else Except.ok (searchsorted bnds x)

/-- Embeds the construction of `self._which_caustic` at the end of
`UniformCausticSampling._find_inflections_and_correct`.  For one caustic the
method returns `[0, 1]` early; otherwise `L1 = self._sum_1[-1]` and
`L2 = self._sum_2[-1]` are the terminal cumulative arc-length sums and the
code builds `lengths` with `length_1 = 2*L1`, `length_2 = L2` (doubled when
`n = 2`), `length_3 = length_2`, then divides `[0] ++ lengths` by their sum. -/
def which_caustic_boundaries (n : ℕ) (L1 L2 : K) : List K :=
  if n = 1 then [0, 1]
  else
    let length_1 : K := 2 * L1
    let length_2 : K := if n = 2 then 2 * L2 else L2
    let lengths : List K :=
      if n = 3 then
        [length_1, length_1 + length_2, length_1 + length_2 + length_2]
      else [length_1, length_1 + length_2]
    let lengths_sum : K :=
      if n = 3 then length_1 + length_2 + length_2 else length_1 + length_2
    ((0 : K) :: lengths).map (fun v => v / lengths_sum)

/-- The arc length the code assigns to caustic `c`: the local variable
`length_c` of `_find_inflections_and_correct`.  Caustic 1 always gets twice
the accumulated sum `L1` because it is traversed twice. -/
def caustic_total_length (n : ℕ) (L1 L2 : K) (c : ℕ) : K :=
  if c = 1 then 2 * L1 else if n = 2 then 2 * L2 else L2

/-! ## Branch disambiguation in `_integrate` for the 3-caustic topology -/

/-- The quantity `((1 / np.conjugate(z)) - z).imag` computed per root in
`UniformCausticSampling._integrate` when `self._n_caustics == 3`. -/
def signsIm (z : Cplx K) : K := ((Cplx.conj z).inv.sub z).im

/-- Embeds the branch assignment for the second caustic in `_integrate`
(3-caustic topology, integration step `i >= 1`): given roots 1 and 2 of
`self._z_all[i]`, raise when `signs[1] * signs[2] >= 0`, otherwise set
`self._z_index_sum_2[i]` to 2 when `signs[1] < 0` and to 1 otherwise. -/
def branch2_select (z1 z2 : Cplx K) : Except String ℕ :=
  let s1 := signsIm z1
  let s2 := signsIm z2
  if s1 * s2 ≥ 0 then Except.error "Critical error"
  else if s1 < 0 then Except.ok 2 else Except.ok 1

/-! ## `UniformCausticSampling._get_n_caustics` -/

open Real in
/-- Embeds `UniformCausticSampling._get_n_caustics`: the source computes
`limit = (1. + q) / (1. + q**(1./3.))**3` and returns 2 when
`s > 1. / math.sqrt(limit)`, 3 when `s < math.pow(limit, 0.25)`, and
1 otherwise. -/
noncomputable def n_caustics (s q : ℝ) : ℕ :=
  let limit : ℝ := (1 + q) / (1 + q ^ ((1 : ℝ) / 3)) ^ (3 : ℕ)
  if s > 1 / Real.sqrt limit then 2
  else if s < limit ^ ((0.25 : ℝ)) then 3
  else 1

open Real in
/-- Modelled on the words of the spec for the refinement comparison of claim
C1: compute `limit = (1+q)/(1+q^(1/3))^3`; the topology is 2 (wide) if
`s > 1/sqrt(limit)`, 3 (close) if `s < limit^(1/4)`, and 1 (resonant)
otherwise. -/
noncomputable def topology_rule (s q : ℝ) : ℕ :=
  let limit : ℝ := (1 + q) / (1 + q ^ ((1 : ℝ) / 3)) ^ (3 : ℕ)
  if s > 1 / Real.sqrt limit then 2
  else if s < limit ^ ((1 : ℝ) / 4) then 3
  else 1

/-! ## `CausticsPointWithShear._calculate` angle sampling -/

/-- Embeds `n_angles = int(n_points/4.+.5)` from
`CausticsPointWithShear._calculate`.  Both `n_points/4.` and the addition of
`.5` are exact in binary floating point, so the truncation equals the
rational floor. -/
def n_angles (n_points : ℕ) : ℕ :=
  Int.toNat ⌊(n_points : ℚ) / 4 + 1 / 2⌋

/-- Embeds `np.linspace(0., 2.*np.pi, n_angles, endpoint=False)`:
the list of `n_angles` values `2*pi*k/n_angles`. -/
noncomputable def calculate_angles (n_points : ℕ) : List ℝ :=
  (List.range (n_angles n_points)).map
    (fun k : ℕ => 2 * Real.pi * (k : ℝ) / (n_angles n_points))

/-- Embeds `xcm_offset = self.q * self.s / (1. + self.q)`. -/
noncomputable def xcm_offset (q s : ℝ) : ℝ := q * s / (1 + q)

/-- Embeds `CausticsPointWithShear._solve_lens_equation`:
`z - (1/(1+q)) * (1/conj(z) + q/(conj(z) - s))`. -/
noncomputable def solve_lens_equation (q s : ℝ) (z : Cplx ℝ) : Cplx ℝ :=
  Cplx.sub z (Cplx.smul (1 / (1 + q))
    (Cplx.add (Cplx.inv (Cplx.conj z))
      (Cplx.div (Cplx.ofField q) (Cplx.sub (Cplx.conj z) (Cplx.ofField s)))))

/-- Embeds the coefficient construction for Eq. 6 of Cassan (2008) in
`CausticsPointWithShear._calculate`; index `i` is the coefficient of `z^i`
and `eiphi = cos(phi) + i*sin(phi)`. -/
noncomputable def caustic_poly_coeffs (q s phi : ℝ) : Fin 5 → Cplx ℝ :=
  let eiphi : Cplx ℝ := ⟨Real.cos phi, Real.sin phi⟩
  fun i =>
    match i with
    | 0 => Cplx.smul (-s ^ 2 / (1 + q)) eiphi
    | 1 => Cplx.smul (2 * s / (1 + q)) eiphi
    | 2 => Cplx.sub (Cplx.ofField (s ^ 2)) eiphi
    | 3 => Cplx.ofField (-2 * s)
    | 4 => Cplx.ofField 1

/-- Embeds the recording loop of `CausticsPointWithShear._calculate`: for
each sampled angle the external solver `numpy.polynomial.polynomial.polyroots`
returns the 4 roots of the quartic, and for each root the critical-curve
point (root shifted by `-xcm_offset` in the real part) and its image under
the lens equation (likewise shifted) are appended.  The root solver is the
external collaborator, abstracted as `solver`. -/
noncomputable def calculate_points (q s : ℝ) (solver : ℝ → Fin 4 → Cplx ℝ)
    (n_points : ℕ) : List (Cplx ℝ) × List (Cplx ℝ) :=
  let angles := calculate_angles n_points
  (angles.flatMap (fun phi => (List.finRange 4).map (fun j =>
      ⟨(solver phi j).re - xcm_offset q s, (solver phi j).im⟩)),
   angles.flatMap (fun phi => (List.finRange 4).map (fun j =>
      let p := solve_lens_equation q s (solver phi j)
      ⟨p.re - xcm_offset q s, p.im⟩)))

/-! ## `UniformCausticSampling.get_standard_parameters` -/

/-- Embeds `np.sign` on a float. -/
def sign0 (x : K) : K := if x < 0 then -1 else if x = 0 then 0 else 1

/-- Embeds `np.heaviside(x, h)`. -/
def heaviside (x h : K) : K := if x < 0 then 0 else if x = 0 then h else 1

/-- Embeds `abs` of a `numpy.complex128`. -/
noncomputable def cabs (z : Cplx ℝ) : ℝ := Real.sqrt (z.re ^ 2 + z.im ^ 2)

/-- The standard parameters returned by `get_standard_parameters`. -/
structure StdParams where
  t_0 : ℝ
  u_0 : ℝ
  t_E : ℝ
  alpha : ℝ

/-- Embeds the trajectory-angle computation of `get_standard_parameters`:
`alpha = pi/2 * sign(Im out - Im in)` when the real parts agree, otherwise
`arctan(dIm/dRe) + pi * heaviside(Re in - Re out, 0.5)`; converted to degrees
and shifted by 360 when negative. -/
noncomputable def std_alpha (zeta_in zeta_out : Cplx ℝ) : ℝ :=
  let a : ℝ :=
    if zeta_out.re = zeta_in.re then
      0.5 * Real.pi * sign0 (zeta_out.im - zeta_in.im)
    else
      Real.arctan ((zeta_out.im - zeta_in.im) / (zeta_out.re - zeta_in.re)) +
        Real.pi * heaviside (zeta_in.re - zeta_out.re) 0.5
  let deg : ℝ := a * (180 / Real.pi)
  if deg < 0 then deg + 360 else deg

/-- Embeds the parameter computation at the end of
`get_standard_parameters`, after the caustic-consistency check, with
`zeta_in` and `zeta_out` the two caustic points. -/
noncomputable def standard_params (zeta_in zeta_out : Cplx ℝ)
    (t_caustic_in t_caustic_out : ℝ) : StdParams :=
  let d := Cplx.sub zeta_out zeta_in
  let u_0 : ℝ :=
    (zeta_out.re * zeta_in.im - zeta_out.im * zeta_in.re) / cabs d
  let t_E : ℝ := (t_caustic_out - t_caustic_in) / cabs d
  let t_0 : ℝ :=
    (Cplx.div (Cplx.add zeta_out zeta_in) d).re *
      (0.5 * (t_caustic_in - t_caustic_out)) +
      0.5 * (t_caustic_out + t_caustic_in)
  ⟨t_0, u_0, t_E, std_alpha zeta_in zeta_out⟩

/-- Embeds Python (and numpy) sequence indexing `l[i]` for in-range `i`,
including negative indices counting from the end of the sequence. -/
def pyIndex (l : List K) (i : ℤ) : K :=
  if i < 0 then l.getD ((l.length : ℤ) + i).toNat 0 else l.getD i.toNat 0

/-- Embeds `UniformCausticSampling._mirror_normalize_to_0_1`: raises a
`ValueError` when `x < x_min or x > x_max`, otherwise normalizes around the
midpoint, returning the fraction and the mirror flag. -/
def mirror_normalize_to_0_1 (x x_min x_max : K) :
    Except String (K × Bool) :=
  if x < x_min ∨ x > x_max then
    Except.error "problem in _mirror_normalize"
  else
    if x < (x_min + x_max) / 2 then
      Except.ok ((x - x_min) / ((x_min + x_max) / 2 - x_min), false)
    else
      Except.ok ((x_max - x) / (x_max - (x_min + x_max) / 2), true)

/-- Embeds `UniformCausticSampling.caustic_point`.  The method first calls
`which_caustic` (which may raise); for fewer than 3 caustics or caustic 1 it
calls `_mirror_normalize_to_0_1` with bounds
`self._which_caustic[caustic-1]` and `self._which_caustic[caustic]` — Python
negative indexing applies when `caustic = 0` — and that call may raise;
otherwise it normalizes linearly.  The numeric tail (`fraction * sum[-1]`,
the two `np.interp` calls and `_zeta`), which cannot raise, is abstracted by
`interp` as a function of the caustic index and the normalized fraction; the
conjugation on the mirror flag or the third caustic is kept. -/
def caustic_point (bnds : List K) (n : ℕ) (interp : ℕ → K → Cplx K)
    (x : K) : Except String (Cplx K) :=
  match which_caustic bnds n x with
  | Except.error e => Except.error e
  | Except.ok caustic =>
    match
      (if n < 3 ∨ caustic = 1 then
        mirror_normalize_to_0_1 x (pyIndex bnds ((caustic : ℤ) - 1))
          (pyIndex bnds caustic)
      else
        Except.ok ((x - pyIndex bnds ((caustic : ℤ) - 1)) /
          (pyIndex bnds caustic - pyIndex bnds ((caustic : ℤ) - 1)), false))
    with
    | Except.error e => Except.error e
    | Except.ok (fraction, flip) =>
      Except.ok (if flip = true ∨ caustic = 3 then
        Cplx.conj (interp caustic fraction)
      else interp caustic fraction)

/-- Embeds `UniformCausticSampling.get_standard_parameters`.  `bnds` and `n`
are the fields `self._which_caustic` and `self._n_caustics`; `interp` is the
abstracted numeric tail of `self.caustic_point` (see `caustic_point`).  The
code first calls `which_caustic` on both coordinates (each may raise),
raises when the two caustic indices differ, then calls `caustic_point` on
each coordinate (each call may raise inside `_mirror_normalize_to_0_1`),
and only then computes the parameters; `Except` returns either the full
result or an error, never a partial result. -/
noncomputable def get_standard_parameters (bnds : List ℝ) (n : ℕ)
    (interp : ℕ → ℝ → Cplx ℝ) (x_caustic_in x_caustic_out t_caustic_in
    t_caustic_out : ℝ) : Except String StdParams :=
  match which_caustic bnds n x_caustic_in with
  | Except.error e => Except.error e
  | Except.ok caustic_in =>
    match which_caustic bnds n x_caustic_out with
    | Except.error e => Except.error e
    | Except.ok caustic_out =>
      if caustic_in ≠ caustic_out then
        Except.error
          "Function get_standard_parameters() got curvelinear caustic coordinates on different caustics."
      else
        match caustic_point bnds n interp x_caustic_in with
        | Except.error e => Except.error e
        | Except.ok zeta_in =>
          match caustic_point bnds n interp x_caustic_out with
          | Except.error e => Except.error e
          | Except.ok zeta_out =>
            Except.ok (standard_params zeta_in zeta_out
              t_caustic_in t_caustic_out)

/-! ## The `Event` fit cache -/

/-- The state of an `Event` restricted to the fields the cache-invalidation
claim concerns.  Models and datasets are abstracted by identifiers and the
fixed-flux maps by association lists; `fits` is the cached list of
per-dataset fit results (`None` embedded as `Option.none`). -/
structure EventState where
  model : Option ℕ
  datasets : Option (List ℕ)
  fix_blend_flux : List (ℕ × ℚ)
  fix_source_flux : List (ℕ × ℚ)
  fix_q_flux : List (ℕ × ℚ)
  fits : Option (List ℕ)
deriving DecidableEq

/-- The argument forms `_set_datasets` accepts: a single `MulensData`, a
list, or `None`. -/
inductive DatasetsArg where
  | single (d : ℕ)
  | many (l : List ℕ)
  | noData
deriving DecidableEq

/-- Embeds the `Event.model` setter: stores the model and resets
`self.fits = None`. -/
def set_model (e : EventState) (m : ℕ) : EventState :=
  { e with model := some m, fits := none }

/-- Embeds `Event._set_datasets`: a single dataset is wrapped in a list; on
`None` the method stores `None` and returns early, leaving `fits` untouched;
otherwise it stores the list and resets `self.fits = None`. -/
def set_datasets (e : EventState) (v : DatasetsArg) : EventState :=
  match v with
  | DatasetsArg.single d => { e with datasets := some [d], fits := none }
  | DatasetsArg.many l => { e with datasets := some l, fits := none }
  | DatasetsArg.noData => { e with datasets := none }

/-- Embeds reassignment of `Event.fix_blend_flux`, which is a plain
attribute (no property setter in the class). -/
def set_fix_blend_flux (e : EventState) (v : List (ℕ × ℚ)) : EventState :=
  { e with fix_blend_flux := v }

/-- Embeds reassignment of `Event.fix_source_flux`, a plain attribute. -/
def set_fix_source_flux (e : EventState) (v : List (ℕ × ℚ)) : EventState :=
  { e with fix_source_flux := v }

/-- Embeds reassignment of `Event.fix_q_flux`, a plain attribute. -/
def set_fix_q_flux (e : EventState) (v : List (ℕ × ℚ)) : EventState :=
  { e with fix_q_flux := v }

/-- Embeds `Event.fit_fluxes`, which unconditionally rebuilds `self.fits`
(the per-dataset computation itself is abstracted as `computed`). -/
def fit_fluxes (e : EventState) (computed : List ℕ) : EventState :=
  { e with fits := some computed }

/-! ## Helper lemmas -/

lemma length_flatMap_const {α β : Type} (l : List α) (g : α → List β) (c : ℕ)
    (h : ∀ x, (g x).length = c) : (l.flatMap g).length = c * l.length := by
  induction l with
  | nil => simp
  | cons a t ih =>
    simp only [List.flatMap_cons, List.length_append, h, ih, List.length_cons]
    ring

lemma n_angles_eq (n : ℕ) : n_angles n = (n + 2) / 4 := by
  unfold n_angles
  have hcast : ((n : ℚ) / 4 + 1 / 2) = ((n + 2 : ℕ) : ℚ) / 4 := by
    push_cast; ring
  rw [hcast]
  have hmod := Nat.div_add_mod (n + 2) 4
  have hlt : (n + 2) % 4 < 4 := Nat.mod_lt _ (by norm_num)
  have hsplit : ((n + 2 : ℕ) : ℚ) =
      4 * (((n + 2) / 4 : ℕ) : ℚ) + (((n + 2) % 4 : ℕ) : ℚ) := by
    exact_mod_cast hmod.symm
  have h2 : (((n + 2) % 4 : ℕ) : ℚ) < 4 := by exact_mod_cast hlt
  have h3 : (0 : ℚ) ≤ (((n + 2) % 4 : ℕ) : ℚ) := by positivity
  have hq : ((n + 2 : ℕ) : ℚ) / 4 =
      (((n + 2) / 4 : ℕ) : ℚ) + (((n + 2) % 4 : ℕ) : ℚ) / 4 := by
    rw [hsplit]; ring
  have hfloor : ⌊((n + 2 : ℕ) : ℚ) / 4⌋ = (((n + 2) / 4 : ℕ) : ℤ) := by
    rw [Int.floor_eq_iff, hq]
    constructor
    · rw [Int.cast_natCast]
      linarith
    · rw [Int.cast_natCast]
      linarith
  rw [hfloor, Int.toNat_natCast]

lemma boundaries_one_eq (L1 L2 : K) :
    which_caustic_boundaries 1 L1 L2 = [0, 1] := by
  norm_num [which_caustic_boundaries]

lemma boundaries_two_eq (L1 L2 : K) (h1 : 0 < L1) (h2 : 0 < L2) :
    which_caustic_boundaries 2 L1 L2 = [0, 2 * L1 / (2 * L1 + 2 * L2), 1] := by
  have hS : 2 * L1 + 2 * L2 ≠ 0 := by positivity
  norm_num [which_caustic_boundaries, div_self hS]

lemma boundaries_three_eq (L1 L2 : K) (h1 : 0 < L1) (h2 : 0 < L2) :
    which_caustic_boundaries 3 L1 L2 =
      [0, 2 * L1 / (2 * L1 + L2 + L2), (2 * L1 + L2) / (2 * L1 + L2 + L2), 1] := by
  have hS : 2 * L1 + L2 + L2 ≠ 0 := by positivity
  norm_num [which_caustic_boundaries, div_self hS]

lemma mirror_normalize_ok (x lo hi : K) (hlo : lo ≤ x) (hhi : x ≤ hi) :
    ∃ r, mirror_normalize_to_0_1 x lo hi = Except.ok r := by
  unfold mirror_normalize_to_0_1
  rw [if_neg (by push_neg; exact ⟨hlo, hhi⟩)]
  by_cases hm : x < (lo + hi) / 2
  · exact ⟨_, by rw [if_pos hm]⟩
  · exact ⟨_, by rw [if_neg hm]⟩

lemma caustic_point_ok (bnds : List K) (n : ℕ) (interp : ℕ → K → Cplx K)
    (x : K) (c : ℕ) (hwc : which_caustic bnds n x = Except.ok c)
    (hbound : (n < 3 ∨ c = 1) →
      pyIndex bnds ((c : ℤ) - 1) ≤ x ∧ x ≤ pyIndex bnds c) :
    ∃ z, caustic_point bnds n interp x = Except.ok z := by
  unfold caustic_point
  rw [hwc]
  simp only []
  by_cases hbr : n < 3 ∨ c = 1
  · obtain ⟨⟨fr, fl⟩, hr⟩ :=
      mirror_normalize_ok x _ _ (hbound hbr).1 (hbound hbr).2
    rw [if_pos hbr, hr]
    exact ⟨_, rfl⟩
  · rw [if_neg hbr]
    exact ⟨_, rfl⟩

lemma gsp_same_x (bnds : List ℝ) (n : ℕ) (interp : ℕ → ℝ → Cplx ℝ)
    (x t_in t_out : ℝ) (c : ℕ) (z : Cplx ℝ)
    (hwc : which_caustic bnds n x = Except.ok c)
    (hcp : caustic_point bnds n interp x = Except.ok z) :
    get_standard_parameters bnds n interp x x t_in t_out =
      Except.ok (standard_params z z t_in t_out) := by
  unfold get_standard_parameters
  rw [hwc, hcp]
  simp

lemma gsp_cp_error (bnds : List ℝ) (n : ℕ) (interp : ℕ → ℝ → Cplx ℝ)
    (x t_in t_out : ℝ) (c : ℕ) (e : String)
    (hwc : which_caustic bnds n x = Except.ok c)
    (hcp : caustic_point bnds n interp x = Except.error e) :
    get_standard_parameters bnds n interp x x t_in t_out =
      Except.error e := by
  unfold get_standard_parameters
  rw [hwc, hcp]
  simp

lemma deg_normalize_range (A : ℝ) (hlo : -90 ≤ A) (hhi : A ≤ 270) :
    0 ≤ (if A < 0 then A + 360 else A) ∧ (if A < 0 then A + 360 else A) < 360 := by
  split_ifs with h <;> constructor <;> linarith

lemma heaviside_bounds (x h : ℝ) (hh0 : 0 ≤ h) (hh1 : h ≤ 1) :
    0 ≤ heaviside x h ∧ heaviside x h ≤ 1 := by
  unfold heaviside
  split_ifs <;> constructor <;> norm_num [hh0, hh1]

lemma std_alpha_range_aux (zin zout : Cplx ℝ) :
    0 ≤ std_alpha zin zout ∧ std_alpha zin zout < 360 := by
  have hpi := Real.pi_pos
  have h180 : (0 : ℝ) < 180 / Real.pi := by positivity
  set a : ℝ := (if zout.re = zin.re then
      0.5 * Real.pi * sign0 (zout.im - zin.im)
    else
      Real.arctan ((zout.im - zin.im) / (zout.re - zin.re)) +
        Real.pi * heaviside (zin.re - zout.re) 0.5) with ha
  have hstd : std_alpha zin zout =
      if a * (180 / Real.pi) < 0 then a * (180 / Real.pi) + 360
      else a * (180 / Real.pi) := by
    rw [ha]; rfl
  have hb : -(Real.pi / 2) ≤ a ∧ a ≤ 3 * Real.pi / 2 := by
    rw [ha]
    split_ifs with hre
    · unfold sign0
      split_ifs <;> constructor <;> nlinarith
    · have harc1 := Real.neg_pi_div_two_lt_arctan
        ((zout.im - zin.im) / (zout.re - zin.re))
      have harc2 := Real.arctan_lt_pi_div_two
        ((zout.im - zin.im) / (zout.re - zin.re))
      have hh := heaviside_bounds (zin.re - zout.re) 0.5 (by norm_num) (by norm_num)
      constructor <;> nlinarith [hh.1, hh.2]
  have heq1 : -(Real.pi / 2) * (180 / Real.pi) = -90 := by
    field_simp
    ring
  have heq2 : (3 * Real.pi / 2) * (180 / Real.pi) = 270 := by
    field_simp
    ring
  have hA1 : -(90 : ℝ) ≤ a * (180 / Real.pi) := by
    have := mul_le_mul_of_nonneg_right hb.1 h180.le
    linarith
  have hA2 : a * (180 / Real.pi) ≤ 270 := by
    have := mul_le_mul_of_nonneg_right hb.2 h180.le
    linarith
  rw [hstd]
  exact deg_normalize_range _ hA1 hA2

/-! ## Claim theorems -/

/-- C1: for every mass ratio `q` in `(0,1]` and separation `s > 0`, the
number of caustics computed at construction (`_get_n_caustics`) equals the
closed-form threshold rule of the spec: with
`limit = (1+q)/(1+q^(1/3))^3`, the topology is 2 (wide) if
`s > 1/sqrt(limit)`, 3 (close) if `s < limit^(1/4)`, and 1 (resonant)
otherwise. -/
theorem n_caustics_matches_topology_rule (s q : ℝ) (hq0 : 0 < q)
    (hq1 : q ≤ 1) (hs : 0 < s) : n_caustics s q = topology_rule s q := by
  have h : (0.25 : ℝ) = (1 : ℝ) / 4 := by norm_num
  simp only [n_caustics, topology_rule, h]

/-- Witness for C1, at `q = 1`, `s = 1`. -/
theorem n_caustics_matches_topology_rule_witness :
    (0 : ℝ) < 1 ∧ (1 : ℝ) ≤ 1 ∧ n_caustics 1 1 = topology_rule 1 1 :=
  ⟨by norm_num, by norm_num,
    n_caustics_matches_topology_rule 1 1 (by norm_num) (by norm_num) (by norm_num)⟩

/-- C6: in the 3-caustic topology, at every integration angle after the
first, the branch assignment for the second caustic is determined by the
sign of `Im(1/conj(z) - z)` at roots 1 and 2 of `self._z_all[i]`: if the two
signs do not differ (their product is `>= 0`), a fatal error is raised and
no result is produced; otherwise root index 2 is assigned when the sign at
root 1 is negative and root index 1 otherwise. -/
theorem branch2_select_spec (z1 z2 : Cplx ℚ) :
    (signsIm z1 * signsIm z2 ≥ 0 →
      branch2_select z1 z2 = Except.error "Critical error") ∧
    (signsIm z1 * signsIm z2 < 0 →
      branch2_select z1 z2 = Except.ok (if signsIm z1 < 0 then 2 else 1)) := by
  constructor
  · intro h
    simp [branch2_select, h]
  · intro h
    have hne : ¬ signsIm z1 * signsIm z2 ≥ 0 := not_le.mpr h
    simp only [branch2_select, if_neg hne]
    split_ifs <;> rfl

/-- Witness for C6: roots `2i` and `i/2` have sign values `-3/2` and `3/2`,
so the product is negative and root index 2 is selected. -/
theorem branch2_select_spec_witness :
    branch2_select (⟨0, 2⟩ : Cplx ℚ) ⟨0, 1/2⟩ =
      Except.ok (if signsIm (⟨0, 2⟩ : Cplx ℚ) < 0 then 2 else 1) :=
  (branch2_select_spec ⟨0, 2⟩ ⟨0, 1/2⟩).2
    (by norm_num [signsIm, Cplx.conj, Cplx.inv, Cplx.sub])

/-- C9 counterexample: reassigning a fixed-flux map does not invalidate the
cached fits — `fix_blend_flux` is a plain attribute with no setter that
resets `fits`, so with cached fits present the cache survives the
reassignment, contradicting the claim that any fixed-flux map reassignment
resets `fits` to `None`. -/
theorem fix_flux_reassignment_keeps_fits :
    (set_fix_blend_flux ⟨some 1, some [1], [], [], [], some [7]⟩
      [(1, 0)]).fits = some [7] ∧ (some [7] : Option (List ℕ)) ≠ none := by
  constructor
  · rfl
  · simp

/-- C9 amended: reassigning `model` resets the cached fits to `None`, as
does reassigning `datasets` to a list or to a single dataset; but
reassigning `datasets` to `None` returns early and leaves the cache
untouched, and reassigning any of the fixed-flux maps (`fix_blend_flux`,
`fix_source_flux`, `fix_q_flux`) leaves the cache untouched because they are
plain attributes.  `fit_fluxes` rebuilds the fits unconditionally. -/
theorem event_cache_invalidation (e : EventState) (m : ℕ) (l : List ℕ)
    (d : ℕ) (v : List (ℕ × ℚ)) :
    (set_model e m).fits = none ∧
    (set_datasets e (DatasetsArg.many l)).fits = none ∧
    (set_datasets e (DatasetsArg.single d)).fits = none ∧
    (set_datasets e DatasetsArg.noData).fits = e.fits ∧
    (set_fix_blend_flux e v).fits = e.fits ∧
    (set_fix_source_flux e v).fits = e.fits ∧
    (set_fix_q_flux e v).fits = e.fits ∧
    (fit_fluxes e l).fits = some l :=
  ⟨rfl, rfl, rfl, rfl, rfl, rfl, rfl, rfl⟩

/-- C7 counterexample: `_calculate(5000)` samples
`int(5000/4 + 0.5) = 1250` angles, not 5000 — the claim that the polynomial
is evaluated at exactly `n_points` angles fails. -/
theorem calculate_angles_count_counterexample :
    (calculate_angles 5000).length ≠ 5000 := by
  have h : (calculate_angles 5000).length = n_angles 5000 := by
    unfold calculate_angles
    rw [List.length_map, List.length_range]
  rw [h, n_angles_eq]
  norm_num

/-- C7 amended: `_calculate(n_points)` evaluates the degree-4
critical-curve polynomial at exactly `int(n_points/4 + 0.5)` angles, so that
the total number of recorded points `4 * n_angles` is the multiple of 4
closest to `n_points`; the angles are uniformly spaced over `[0, 2*pi)`
(`k`-th angle `2*pi*k/n_angles`, consecutive spacing `2*pi/n_angles`), and 4
critical-curve roots and 4 caustic images are recorded per angle. -/
theorem calculate_sampling (q s : ℝ) (solver : ℝ → Fin 4 → Cplx ℝ)
    (n_points : ℕ) (h : 2 ≤ n_points) :
    (calculate_angles n_points).length = n_angles n_points ∧
    (4 * n_angles n_points ≤ n_points + 2 ∧
      n_points ≤ 4 * n_angles n_points + 2) ∧
    (∀ k, k < n_angles n_points →
      (calculate_angles n_points).getD k 0 =
        2 * Real.pi * k / (n_angles n_points) ∧
      0 ≤ (calculate_angles n_points).getD k 0 ∧
      (calculate_angles n_points).getD k 0 < 2 * Real.pi) ∧
    (∀ k, k + 1 < n_angles n_points →
      (calculate_angles n_points).getD (k + 1) 0 -
        (calculate_angles n_points).getD k 0 =
        2 * Real.pi / (n_angles n_points)) ∧
    (calculate_points q s solver n_points).1.length = 4 * n_angles n_points ∧
    (calculate_points q s solver n_points).2.length = 4 * n_angles n_points := by
  have hm : 0 < n_angles n_points := by
    rw [n_angles_eq]
    omega
  have hmR : (0 : ℝ) < (n_angles n_points : ℝ) := by exact_mod_cast hm
  have hpi := Real.pi_pos
  have hlen : (calculate_angles n_points).length = n_angles n_points := by
    unfold calculate_angles
    rw [List.length_map, List.length_range]
  have hget : ∀ k, k < n_angles n_points →
      (calculate_angles n_points).getD k 0 =
        2 * Real.pi * k / (n_angles n_points) := by
    intro k hk
    have hk2 : k < (calculate_angles n_points).length := by
      rw [hlen]; exact hk
    rw [List.getD_eq_getElem _ _ hk2]
    unfold calculate_angles
    rw [List.getElem_map, List.getElem_range]
  refine ⟨hlen, ?_, ?_, ?_, ?_, ?_⟩
  · rw [n_angles_eq]
    omega
  · intro k hk
    refine ⟨hget k hk, ?_, ?_⟩
    · rw [hget k hk]
      positivity
    · rw [hget k hk, div_lt_iff hmR]
      have hkR : (k : ℝ) < (n_angles n_points : ℝ) := by exact_mod_cast hk
      nlinarith
  · intro k hk
    rw [hget (k + 1) hk, hget k (by omega)]
    push_cast
    field_simp
    ring
  · unfold calculate_points
    rw [length_flatMap_const _ _ 4 (by
      intro x
      rw [List.length_map, List.length_finRange]), hlen]
  · unfold calculate_points
    rw [length_flatMap_const _ _ 4 (by
      intro x
      rw [List.length_map, List.length_finRange]), hlen]

/-- Witness for C7's amended theorem, at `n_points = 8` (so 2 angles). -/
theorem calculate_sampling_witness :
    (calculate_angles 8).length = n_angles 8 ∧
    (calculate_points 1 1 (fun _ _ => ⟨0, 0⟩) 8).1.length = 4 * n_angles 8 :=
  ⟨(calculate_sampling 1 1 (fun _ _ => ⟨0, 0⟩) 8 (by norm_num)).1,
    (calculate_sampling 1 1 (fun _ _ => ⟨0, 0⟩) 8 (by norm_num)).2.2.2.2.1⟩

/-- C2: for every `(q, s)` for which the parameterization is built (the
terminal cumulative arc-length sums `L1`, `L2` are positive and the number
of caustics is 1, 2 or 3), the curvilinear partition boundary array starts
at exactly 0, ends at exactly 1, is strictly increasing, and each caustic's
sub-range width is proportional (factor `k`) to the total arc length the
code assigns to that caustic, with caustic 1 occupying a doubled range
(`2 * L1`, twice the accumulated sum) because it is traversed twice. -/
theorem curvilinear_partition_spec (n : ℕ) (L1 L2 : ℚ)
    (hn : n = 1 ∨ n = 2 ∨ n = 3) (h1 : 0 < L1) (h2 : 0 < L2) :
    (which_caustic_boundaries n L1 L2).head? = some 0 ∧
    (which_caustic_boundaries n L1 L2).getLast? = some 1 ∧
    List.Chain' (· < ·) (which_caustic_boundaries n L1 L2) ∧
    caustic_total_length n L1 L2 1 = 2 * L1 ∧
    ∃ k : ℚ, 0 < k ∧ ∀ c : ℕ, 1 ≤ c → c ≤ n →
      (which_caustic_boundaries n L1 L2).getD c 0 -
        (which_caustic_boundaries n L1 L2).getD (c - 1) 0 =
        k * caustic_total_length n L1 L2 c := by
  rcases hn with rfl | rfl | rfl
  · have hb : which_caustic_boundaries 1 L1 L2 = [0, 1] := by
      norm_num [which_caustic_boundaries]
    rw [hb]
    refine ⟨rfl, rfl, by norm_num, by norm_num [caustic_total_length],
      1 / (2 * L1), by positivity, ?_⟩
    intro c hc1 hcn
    interval_cases c
    norm_num [caustic_total_length]
    field_simp
    try ring
  · have hS : (0 : ℚ) < 2 * L1 + 2 * L2 := by positivity
    rw [boundaries_two_eq L1 L2 h1 h2]
    refine ⟨rfl, rfl, ?_, by norm_num [caustic_total_length],
      1 / (2 * L1 + 2 * L2), by positivity, ?_⟩
    · have ha0 : (0 : ℚ) < 2 * L1 / (2 * L1 + 2 * L2) := by positivity
      have ha1 : 2 * L1 / (2 * L1 + 2 * L2) < 1 := by
        rw [div_lt_one hS]
        linarith
      norm_num [ha0, ha1]
    · intro c hc1 hcn
      interval_cases c
      · norm_num [caustic_total_length]
        field_simp
        try ring
      · norm_num [caustic_total_length]
        field_simp
        try ring
  · have hS : (0 : ℚ) < 2 * L1 + L2 + L2 := by positivity
    rw [boundaries_three_eq L1 L2 h1 h2]
    refine ⟨rfl, rfl, ?_, by norm_num [caustic_total_length],
      1 / (2 * L1 + L2 + L2), by positivity, ?_⟩
    · have ha0 : (0 : ℚ) < 2 * L1 / (2 * L1 + L2 + L2) := by positivity
      have hab : 2 * L1 / (2 * L1 + L2 + L2) <
          (2 * L1 + L2) / (2 * L1 + L2 + L2) := by
        rw [div_lt_div_iff hS hS]
        nlinarith
      have hb1 : (2 * L1 + L2) / (2 * L1 + L2 + L2) < 1 := by
        rw [div_lt_one hS]
        linarith
      norm_num [ha0, hab, hb1]
    · intro c hc1 hcn
      interval_cases c
      · norm_num [caustic_total_length]
        field_simp
        try ring
      · norm_num [caustic_total_length]
        field_simp
        try ring
      · norm_num [caustic_total_length]
        field_simp
        try ring

/-- Witness for C2, at `n = 2`, `L1 = L2 = 1`. -/
theorem curvilinear_partition_spec_witness :
    (which_caustic_boundaries 2 (1 : ℚ) 1).head? = some 0 ∧
    (which_caustic_boundaries 2 (1 : ℚ) 1).getLast? = some 1 ∧
    List.Chain' (· < ·) (which_caustic_boundaries 2 (1 : ℚ) 1) :=
  have h := curvilinear_partition_spec 2 1 1 (by norm_num) (by norm_num)
    (by norm_num)
  ⟨h.1, h.2.1, h.2.2.1⟩

/-- C3: for every built parameterization with more than one caustic and
every caustic index `c`, if `x` lies strictly between the two partition
boundaries assigned to caustic `c`, then `which_caustic(x)` returns
exactly `c`. -/
theorem which_caustic_roundtrip (n : ℕ) (L1 L2 x : ℚ) (hn : n = 2 ∨ n = 3)
    (h1 : 0 < L1) (h2 : 0 < L2) (c : ℕ) (hc1 : 1 ≤ c) (hcn : c ≤ n)
    (hlo : (which_caustic_boundaries n L1 L2).getD (c - 1) 0 < x)
    (hhi : x < (which_caustic_boundaries n L1 L2).getD c 0) :
    which_caustic (which_caustic_boundaries n L1 L2) n x = Except.ok c := by
  rcases hn with rfl | rfl
  · have hS : (0 : ℚ) < 2 * L1 + 2 * L2 := by positivity
    have ha0 : (0 : ℚ) < 2 * L1 / (2 * L1 + 2 * L2) := by positivity
    have ha1 : 2 * L1 / (2 * L1 + 2 * L2) < 1 := by
      rw [div_lt_one hS]
      linarith
    rw [boundaries_two_eq L1 L2 h1 h2] at hlo hhi ⊢
    interval_cases c
    · simp only [List.getD] at hlo hhi
      norm_num at hlo hhi
      have hx1 : x < 1 := lt_trans hhi ha1
      norm_num [which_caustic, searchsorted, hlo, asymm hlo,
        not_lt.mpr hhi.le, not_lt.mpr hx1.le]
    · simp only [List.getD] at hlo hhi
      norm_num at hlo hhi
      have hx0 : (0 : ℚ) < x := lt_trans ha0 hlo
      norm_num [which_caustic, searchsorted, hx0, hlo, asymm hx0,
        not_lt.mpr hhi.le]
  · have hS : (0 : ℚ) < 2 * L1 + L2 + L2 := by positivity
    have ha0 : (0 : ℚ) < 2 * L1 / (2 * L1 + L2 + L2) := by positivity
    have hab : 2 * L1 / (2 * L1 + L2 + L2) <
        (2 * L1 + L2) / (2 * L1 + L2 + L2) := by
      rw [div_lt_div_iff hS hS]
      nlinarith
    have hb1 : (2 * L1 + L2) / (2 * L1 + L2 + L2) < 1 := by
      rw [div_lt_one hS]
      linarith
    rw [boundaries_three_eq L1 L2 h1 h2] at hlo hhi ⊢
    interval_cases c
    · simp only [List.getD] at hlo hhi
      norm_num at hlo hhi
      have hx1 : x < 1 := lt_trans hhi (lt_trans hab hb1)
      norm_num [which_caustic, searchsorted, hlo, asymm hlo,
        not_lt.mpr hhi.le, not_lt.mpr (le_of_lt (lt_trans hhi hab)),
        not_lt.mpr hx1.le]
    · simp only [List.getD] at hlo hhi
      norm_num at hlo hhi
      have hx0 : (0 : ℚ) < x := lt_trans ha0 hlo
      have hx1 : x < 1 := lt_trans hhi hb1
      norm_num [which_caustic, searchsorted, hx0, hlo, asymm hx0,
        not_lt.mpr hhi.le, not_lt.mpr hx1.le]
    · simp only [List.getD] at hlo hhi
      norm_num at hlo hhi
      have hx0 : (0 : ℚ) < x := lt_trans ha0 (lt_trans hab hlo)
      norm_num [which_caustic, searchsorted, hx0, lt_trans hab hlo, hlo,
        asymm hx0, not_lt.mpr hhi.le]

/-- Witness for C3: with `n = 2`, `L1 = L2 = 1` the boundaries are
`[0, 1/2, 1]` and `x = 1/4` strictly inside `(0, 1/2)` maps to caustic 1. -/
theorem which_caustic_roundtrip_witness :
    which_caustic (which_caustic_boundaries 2 (1 : ℚ) 1) 2 (1/4) =
      Except.ok 1 :=
  which_caustic_roundtrip 2 1 1 (1/4) (Or.inl rfl) (by norm_num)
    (by norm_num) 1 (by norm_num) (by norm_num)
    (by norm_num [which_caustic_boundaries, List.getD])
    (by norm_num [which_caustic_boundaries, List.getD])

/-- C4 counterexample: with more than one caustic (here `n = 2`,
`L1 = L2 = 1`, boundaries `[0, 1/2, 1]`), the in-range coordinate `x = 0`
makes `which_caustic` return 0 via `np.searchsorted`, which is not a caustic
index in `{1, 2, 3}` — the claim that every `x` in `[0,1]` yields an index
in `{1,2,3}` fails at `x = 0`. -/
theorem which_caustic_at_zero_counterexample :
    which_caustic (which_caustic_boundaries 2 (1 : ℚ) 1) 2 0 = Except.ok 0 ∧
    ¬(1 ≤ 0 ∧ 0 ≤ 3) := by
  constructor
  · norm_num [which_caustic, searchsorted, which_caustic_boundaries]
  · norm_num

/-- C4 amended: for every `x` in `(0, 1]` (zero excluded),
`which_caustic(x)` returns a caustic index in `{1, 2, 3}`; at `x = 0` with
more than one caustic it returns 0; for every `x > 1` or `x < 0` it raises
an out-of-range `ValueError`. -/
theorem which_caustic_range (n : ℕ) (L1 L2 : ℚ) (hn : n = 1 ∨ n = 2 ∨ n = 3)
    (h1 : 0 < L1) (h2 : 0 < L2) :
    (∀ x : ℚ, 0 < x → x ≤ 1 →
      ∃ c, which_caustic (which_caustic_boundaries n L1 L2) n x =
        Except.ok c ∧ 1 ≤ c ∧ c ≤ 3) ∧
    (1 < n →
      which_caustic (which_caustic_boundaries n L1 L2) n 0 = Except.ok 0) ∧
    (∀ x : ℚ, 1 < x →
      which_caustic (which_caustic_boundaries n L1 L2) n x =
        Except.error "Got x_caustic > 1") ∧
    (∀ x : ℚ, x < 0 →
      which_caustic (which_caustic_boundaries n L1 L2) n x =
        Except.error "Got x_caustic < 0") := by
  refine ⟨?_, ?_, ?_, ?_⟩
  · intro x hx0 hx1
    rcases hn with rfl | rfl | rfl
    · exact ⟨1, by
        unfold which_caustic
        rw [if_neg (by linarith), if_neg (by linarith), if_pos rfl],
        by norm_num, by norm_num⟩
    · rw [boundaries_two_eq L1 L2 h1 h2]
      by_cases hax : 2 * L1 / (2 * L1 + 2 * L2) < x
      · refine ⟨2, ?_, by norm_num, by norm_num⟩
        norm_num [which_caustic, searchsorted, hx0, hax, asymm hx0,
          not_lt.mpr hx1]
      · refine ⟨1, ?_, by norm_num, by norm_num⟩
        norm_num [which_caustic, searchsorted, hx0, hax, asymm hx0,
          not_lt.mpr hx1]
    · rw [boundaries_three_eq L1 L2 h1 h2]
      have hS : (0 : ℚ) < 2 * L1 + L2 + L2 := by positivity
      have hab : 2 * L1 / (2 * L1 + L2 + L2) <
          (2 * L1 + L2) / (2 * L1 + L2 + L2) := by
        rw [div_lt_div_iff hS hS]
        nlinarith
      by_cases hbx : (2 * L1 + L2) / (2 * L1 + L2 + L2) < x
      · refine ⟨3, ?_, by norm_num, by norm_num⟩
        norm_num [which_caustic, searchsorted, hx0, lt_trans hab hbx, hbx,
          asymm hx0, not_lt.mpr hx1]
      · by_cases hax : 2 * L1 / (2 * L1 + L2 + L2) < x
        · refine ⟨2, ?_, by norm_num, by norm_num⟩
          norm_num [which_caustic, searchsorted, hx0, hax, hbx, asymm hx0,
            not_lt.mpr hx1]
        · refine ⟨1, ?_, by norm_num, by norm_num⟩
          norm_num [which_caustic, searchsorted, hx0, hax, hbx, asymm hx0,
            not_lt.mpr hx1]
  · intro hn1
    have hne1 : n ≠ 1 := by omega
    have hnonneg : ∀ b ∈ which_caustic_boundaries n L1 L2, 0 ≤ b := by
      rcases hn with rfl | rfl | rfl
      · exact absurd hn1 (by norm_num)
      · rw [boundaries_two_eq L1 L2 h1 h2]
        intro b hb
        simp only [List.mem_cons, List.not_mem_nil, or_false] at hb
        rcases hb with rfl | rfl | rfl <;> positivity
      · rw [boundaries_three_eq L1 L2 h1 h2]
        intro b hb
        simp only [List.mem_cons, List.not_mem_nil, or_false] at hb
        rcases hb with rfl | rfl | rfl | rfl <;> positivity
    have hcount : ∀ l : List ℚ, (∀ b ∈ l, 0 ≤ b) →
        searchsorted l (0 : ℚ) = 0 := by
      intro l
      induction l with
      | nil => intro _; rfl
      | cons a t ih =>
        intro hmem
        unfold searchsorted
        rw [if_neg (not_lt.mpr (hmem a (by simp))),
          ih (fun b hb => hmem b (by simp [hb]))]
    unfold which_caustic
    rw [if_neg (by norm_num), if_neg (by norm_num), if_neg hne1,
      hcount _ hnonneg]
  · intro x hx
    unfold which_caustic
    rw [if_pos hx]
  · intro x hx
    unfold which_caustic
    rw [if_neg (by linarith), if_pos hx]

/-- Witness for C4's amended theorem: the out-of-range branch at `x = 2`. -/
theorem which_caustic_range_witness :
    which_caustic (which_caustic_boundaries 2 (1 : ℚ) 1) 2 2 =
      Except.error "Got x_caustic > 1" :=
  (which_caustic_range 2 1 1 (Or.inr (Or.inl rfl)) (by norm_num)
    (by norm_num)).2.2.1 2 (by norm_num)

/-- C5: for every `x_caustic_in` and `x_caustic_out` that resolve via
`which_caustic` to different caustic indices, `get_standard_parameters`
raises an inconsistent-caustic error; by construction of `Except`, an error
carries no partial result. -/
theorem gsp_inconsistent_caustics (bnds : List ℝ) (n : ℕ)
    (interp : ℕ → ℝ → Cplx ℝ) (x_in x_out t_in t_out : ℝ) (c1 c2 : ℕ)
    (hin : which_caustic bnds n x_in = Except.ok c1)
    (hout : which_caustic bnds n x_out = Except.ok c2) (hne : c1 ≠ c2) :
    get_standard_parameters bnds n interp x_in x_out t_in t_out =
      Except.error
        "Function get_standard_parameters() got curvelinear caustic coordinates on different caustics." := by
  unfold get_standard_parameters
  rw [hin, hout]
  simp [hne]

/-- Witness for C5: boundaries `[0, 1/2, 1]` with two caustics;
`x_in = 1/4` is on caustic 1 and `x_out = 3/4` on caustic 2. -/
theorem gsp_inconsistent_caustics_witness :
    get_standard_parameters [0, 1/2, 1] 2 (fun _ _ => ⟨0, 0⟩) (1/4) (3/4)
      0 1 =
      Except.error
        "Function get_standard_parameters() got curvelinear caustic coordinates on different caustics." :=
  gsp_inconsistent_caustics [0, 1/2, 1] 2 (fun _ _ => ⟨0, 0⟩) (1/4) (3/4)
    0 1 1 2
    (by norm_num [which_caustic, searchsorted])
    (by norm_num [which_caustic, searchsorted])
    (by norm_num)

/-- C8: for every pair of caustic points and epochs for which
`get_standard_parameters` returns, the returned trajectory angle `alpha` is
in degrees and satisfies `0 <= alpha < 360`. -/
theorem gsp_alpha_range (bnds : List ℝ) (n : ℕ) (interp : ℕ → ℝ → Cplx ℝ)
    (x_in x_out t_in t_out : ℝ) (p : StdParams)
    (h : get_standard_parameters bnds n interp x_in x_out t_in t_out =
      Except.ok p) : 0 ≤ p.alpha ∧ p.alpha < 360 := by
  unfold get_standard_parameters at h
  split at h
  · exact absurd h (by simp)
  · split at h
    · exact absurd h (by simp)
    · split at h
      · exact absurd h (by simp)
      · split at h
        · exact absurd h (by simp)
        · split at h
          · exact absurd h (by simp)
          · rw [Except.ok.injEq] at h
            subst h
            simpa [standard_params] using std_alpha_range_aux _ _

/-- Witness for C8: a degenerate configuration (both caustic points at the
origin, one caustic) returns with `alpha = 0`, inside `[0, 360)`. -/
theorem gsp_alpha_range_witness :
    0 ≤ (StdParams.mk (1/2) 0 0 0).alpha ∧
      (StdParams.mk (1/2) 0 0 0).alpha < 360 :=
  gsp_alpha_range [0, 1] 1 (fun _ _ => ⟨0, 0⟩) (1/4) (1/4) 0 1
    ⟨1/2, 0, 0, 0⟩
    (by
      norm_num [get_standard_parameters, which_caustic, caustic_point,
        mirror_normalize_to_0_1, pyIndex, List.getD, standard_params,
        std_alpha, cabs, sign0, Cplx.sub, Cplx.add, Cplx.div,
        StdParams.mk.injEq, Real.sqrt_zero])

/-- C10 counterexample: at `x = 0` with the wide (2-caustic) topology
(boundaries `[0, 1/2, 1]`), `which_caustic(0)` returns 0, the consistency
check passes, and then `caustic_point(0)` raises the `ValueError` of
`_mirror_normalize_to_0_1`: via Python negative indexing the bounds become
`(boundaries[-1], boundaries[0]) = (1, 0)` and `0 < 1` fails the range
check — an error is raised before any of the zero-chord divisions,
falsifying the claim for every `x` in `[0,1]`. -/
theorem gsp_zero_chord_counterexample :
    get_standard_parameters (which_caustic_boundaries 2 (1 : ℝ) 1) 2
      (fun _ _ => ⟨0, 0⟩) 0 0 0 1 =
      Except.error "problem in _mirror_normalize" := by
  have hb : which_caustic_boundaries 2 (1 : ℝ) 1 = [0, 1/2, 1] := by
    rw [boundaries_two_eq 1 1 (by norm_num) (by norm_num)]
    norm_num
  rw [hb]
  have hwc0 : which_caustic ([0, 1/2, 1] : List ℝ) 2 0 = Except.ok 0 := by
    norm_num [which_caustic, searchsorted]
  have hcp : caustic_point ([0, 1/2, 1] : List ℝ) 2
      (fun _ _ => (⟨0, 0⟩ : Cplx ℝ)) 0 =
      Except.error "problem in _mirror_normalize" := by
    unfold caustic_point
    rw [hwc0]
    simp only []
    rw [if_pos (by norm_num : (2 : ℕ) < 3 ∨ (0 : ℕ) = 1)]
    have h1 : pyIndex ([0, 1/2, 1] : List ℝ) (((0 : ℕ) : ℤ) - 1) = 1 := rfl
    have h2 : pyIndex ([0, 1/2, 1] : List ℝ) ((0 : ℕ) : ℤ) = 0 := rfl
    rw [h1, h2]
    unfold mirror_normalize_to_0_1
    rw [if_pos (Or.inl (by norm_num))]
  exact gsp_cp_error _ _ _ _ _ _ _ _ hwc0 hcp

/-- C10 amended: for every built parameterization (positive terminal
arc-length sums, 1, 2 or 3 caustics) and every `x` in `(0,1]` — and also at
`x = 0` unless the topology is the wide 2-caustic one — calling
`get_standard_parameters` with `x_caustic_in = x_caustic_out = x` passes
the caustic-consistency check, `caustic_point` succeeds on both coordinates,
and the call returns the result of the unguarded divisions by
`abs(zeta_out - zeta_in)`, whose value is exactly 0: no error is raised
before the zero-chord division.  (At `x = 0` in the wide topology,
`caustic_point` instead raises inside `_mirror_normalize_to_0_1` before the
divisions — see the counterexample.) -/
theorem gsp_zero_chord (n : ℕ) (L1 L2 : ℝ) (hn : n = 1 ∨ n = 2 ∨ n = 3)
    (h1 : 0 < L1) (h2 : 0 < L2) (interp : ℕ → ℝ → Cplx ℝ)
    (x t_in t_out : ℝ) (hx : (0 < x ∧ x ≤ 1) ∨ (x = 0 ∧ n ≠ 2)) :
    ∃ zeta : Cplx ℝ,
      caustic_point (which_caustic_boundaries n L1 L2) n interp x =
        Except.ok zeta ∧
      get_standard_parameters (which_caustic_boundaries n L1 L2) n interp
        x x t_in t_out =
        Except.ok (standard_params zeta zeta t_in t_out) ∧
      cabs (Cplx.sub zeta zeta) = 0 := by
  have h0 : 0 ≤ x := by
    rcases hx with ⟨h, _⟩ | ⟨rfl, _⟩
    · exact h.le
    · exact le_refl 0
  have hx1 : x ≤ 1 := by
    rcases hx with ⟨_, h⟩ | ⟨rfl, _⟩
    · exact h
    · norm_num
  rcases hn with rfl | rfl | rfl
  · -- one caustic
    rw [boundaries_one_eq L1 L2]
    have hwc : which_caustic ([0, 1] : List ℝ) 1 x = Except.ok 1 := by
      unfold which_caustic
      rw [if_neg (not_lt.mpr hx1), if_neg (not_lt.mpr h0), if_pos rfl]
    obtain ⟨z, hz⟩ := caustic_point_ok [0, 1] 1 interp x 1 hwc
      (fun _ => ⟨h0, hx1⟩)
    exact ⟨z, hz, gsp_same_x _ _ _ _ _ _ _ _ hwc hz, by simp [cabs, Cplx.sub]⟩
  · -- two caustics: x = 0 is excluded by the hypothesis
    rcases hx with ⟨hx0, _⟩ | ⟨_, hne2⟩
    swap
    · exact absurd rfl hne2
    have hS : (0 : ℝ) < 2 * L1 + 2 * L2 := by positivity
    rw [boundaries_two_eq L1 L2 h1 h2]
    by_cases hax : 2 * L1 / (2 * L1 + 2 * L2) < x
    · have hwc : which_caustic ([0, 2 * L1 / (2 * L1 + 2 * L2), 1] : List ℝ)
          2 x = Except.ok 2 := by
        norm_num [which_caustic, searchsorted, hx0, hax, asymm hx0,
          not_lt.mpr hx1]
      obtain ⟨z, hz⟩ := caustic_point_ok _ 2 interp x 2 hwc
        (fun _ => ⟨hax.le, hx1⟩)
      exact ⟨z, hz, gsp_same_x _ _ _ _ _ _ _ _ hwc hz,
        by simp [cabs, Cplx.sub]⟩
    · have hwc : which_caustic ([0, 2 * L1 / (2 * L1 + 2 * L2), 1] : List ℝ)
          2 x = Except.ok 1 := by
        norm_num [which_caustic, searchsorted, hx0, hax, asymm hx0,
          not_lt.mpr hx1]
      obtain ⟨z, hz⟩ := caustic_point_ok _ 2 interp x 1 hwc
        (fun _ => ⟨h0, not_lt.mp hax⟩)
      exact ⟨z, hz, gsp_same_x _ _ _ _ _ _ _ _ hwc hz,
        by simp [cabs, Cplx.sub]⟩
  · -- three caustics
    have hS : (0 : ℝ) < 2 * L1 + L2 + L2 := by positivity
    have hab : 2 * L1 / (2 * L1 + L2 + L2) <
        (2 * L1 + L2) / (2 * L1 + L2 + L2) := by
      rw [div_lt_div_iff hS hS]
      nlinarith
    rw [boundaries_three_eq L1 L2 h1 h2]
    rcases hx with ⟨hx0, _⟩ | ⟨rfl, _⟩
    · by_cases hbx : (2 * L1 + L2) / (2 * L1 + L2 + L2) < x
      · have hwc : which_caustic
            ([0, 2 * L1 / (2 * L1 + L2 + L2),
              (2 * L1 + L2) / (2 * L1 + L2 + L2), 1] : List ℝ) 3 x =
            Except.ok 3 := by
          norm_num [which_caustic, searchsorted, hx0, lt_trans hab hbx,
            hbx, asymm hx0, not_lt.mpr hx1]
        obtain ⟨z, hz⟩ := caustic_point_ok _ 3 interp x 3 hwc (by
          intro hbr
          exact absurd hbr (by norm_num))
        exact ⟨z, hz, gsp_same_x _ _ _ _ _ _ _ _ hwc hz,
          by simp [cabs, Cplx.sub]⟩
      · by_cases hax : 2 * L1 / (2 * L1 + L2 + L2) < x
        · have hwc : which_caustic
              ([0, 2 * L1 / (2 * L1 + L2 + L2),
                (2 * L1 + L2) / (2 * L1 + L2 + L2), 1] : List ℝ) 3 x =
              Except.ok 2 := by
            norm_num [which_caustic, searchsorted, hx0, hax, hbx,
              asymm hx0, not_lt.mpr hx1]
          obtain ⟨z, hz⟩ := caustic_point_ok _ 3 interp x 2 hwc (by
            intro hbr
            exact absurd hbr (by norm_num))
          exact ⟨z, hz, gsp_same_x _ _ _ _ _ _ _ _ hwc hz,
            by simp [cabs, Cplx.sub]⟩
        · have hwc : which_caustic
              ([0, 2 * L1 / (2 * L1 + L2 + L2),
                (2 * L1 + L2) / (2 * L1 + L2 + L2), 1] : List ℝ) 3 x =
              Except.ok 1 := by
            norm_num [which_caustic, searchsorted, hx0, hax, hbx,
              asymm hx0, not_lt.mpr hx1]
          obtain ⟨z, hz⟩ := caustic_point_ok _ 3 interp x 1 hwc
            (fun _ => ⟨h0, not_lt.mp hax⟩)
          exact ⟨z, hz, gsp_same_x _ _ _ _ _ _ _ _ hwc hz,
            by simp [cabs, Cplx.sub]⟩
    · -- x = 0 with three caustics: caustic index 0, the linear branch
      have ha0 : (0 : ℝ) < 2 * L1 / (2 * L1 + L2 + L2) := by positivity
      have hb0 : (0 : ℝ) < (2 * L1 + L2) / (2 * L1 + L2 + L2) := by
        positivity
      have hwc : which_caustic
          ([0, 2 * L1 / (2 * L1 + L2 + L2),
            (2 * L1 + L2) / (2 * L1 + L2 + L2), 1] : List ℝ) 3 0 =
          Except.ok 0 := by
        norm_num [which_caustic, searchsorted, not_lt.mpr ha0.le,
          not_lt.mpr hb0.le]
      obtain ⟨z, hz⟩ := caustic_point_ok _ 3 interp 0 0 hwc (by
        intro hbr
        exact absurd hbr (by norm_num))
      exact ⟨z, hz, gsp_same_x _ _ _ _ _ _ _ _ hwc hz,
        by simp [cabs, Cplx.sub]⟩

/-- Witness for C10's amended theorem, at `n = 1`, `x = 1/4` (mirror flag
false, fraction `1/2`). -/
theorem gsp_zero_chord_witness :
    get_standard_parameters (which_caustic_boundaries 1 (1 : ℝ) 1) 1
      (fun _ _ => ⟨0, 0⟩) (1/4) (1/4) 0 1 =
      Except.ok (standard_params ⟨0, 0⟩ ⟨0, 0⟩ 0 1) := by
  obtain ⟨z, hcp, hgsp, -⟩ :=
    gsp_zero_chord 1 1 1 (Or.inl rfl) (by norm_num) (by norm_num)
      (fun _ _ => ⟨0, 0⟩) (1/4) 0 1 (Or.inl ⟨by norm_num, by norm_num⟩)
  have hz : caustic_point (which_caustic_boundaries 1 (1 : ℝ) 1) 1
      (fun _ _ => ⟨0, 0⟩) (1/4) = Except.ok ⟨0, 0⟩ := by
    rw [boundaries_one_eq 1 1]
    have hwc1 : which_caustic ([0, 1] : List ℝ) 1 (1/4) = Except.ok 1 := by
      norm_num [which_caustic]
    unfold caustic_point
    rw [hwc1]
    have hmir : mirror_normalize_to_0_1 ((1 : ℝ)/4)
        (pyIndex ([0, 1] : List ℝ) (0 : ℤ))
        (pyIndex ([0, 1] : List ℝ) (1 : ℤ)) =
        Except.ok (1/2, false) := by
      have h1 : pyIndex ([0, 1] : List ℝ) (0 : ℤ) = 0 := rfl
      have h2 : pyIndex ([0, 1] : List ℝ) (1 : ℤ) = 1 := rfl
      rw [h1, h2]
      unfold mirror_normalize_to_0_1
      rw [if_neg (by norm_num), if_pos (by norm_num)]
      norm_num
    norm_num [hmir]
  rw [hz] at hcp
  injection hcp with hcp2
  subst hcp2
  exact hgsp

end MulensModel
